import Mathlib

/-!
# torflow: country back-fill job and ingestion driver

A shallow embedding of `bin/populate-country-data.js` (function `main`) and of
`run-ingest.js` (the `dbInit.initialize` callback and `processNext`), with the
properties of the two scripts stated and proved over the embedding.

Modelling conventions

* A `Date` is a calendar day, represented by its day number; the order on day
  numbers is the chronological order used by `ORDER BY d.date`.
* The three tables are lists of rows.  `SELECT ... WHERE` is `List.filter`,
  `ORDER BY` is a stable sort, a multi-row `INSERT` appends its rows.
* `geoReader.get` is a function from the address to what the call does: it
  throws, or it returns a value that may be null, may lack `country`, and whose
  country may lack `iso_code`.
* The object `countryCounts` is a list of key/value pairs in insertion order.
  This is the object of the code as long as every key is a lowercased ISO
  3166-1 alpha-2 code: such a key is not a member of `Object.prototype`
  (`__proto__`, `constructor`), is not an array index (which `Object.entries`
  enumerates first), and is lowercased letter by letter.  The statements on the
  content of the object and on the rows made from it assume that the lookups
  yield such codes (`hasIsoCode`).
* Whether the database accepts an `INSERT` depends on the schema created by
  `db/db_init`, which is a parameter (`Schema`) of the run.  The `SELECT`
  queries, `maxmind.open` and `conn.connect` are taken to succeed.
* `ingestFiles` and `dbInit.initialize` call their callback once; what they
  report is a parameter (`Env`) of the run.
-/

namespace Torflow

/-! ## Data model -/

/-- A calendar day, as stored in the `date` columns. -/
abbrev Date := Nat

/-- A relay address, the `ip` column of `relays`. -/
abbrev IP := String

/-- The `country` member of a GeoIP record; `iso_code` may be absent. -/
structure CountryRecord where
  iso_code : Option String
  deriving DecidableEq, Repr

/-- A GeoIP record as returned by `geoReader.get`; `country` may be absent. -/
structure CityRecord where
  country : Option CountryRecord
  deriving DecidableEq, Repr

/-- What a call `geoReader.get(ip)` does: it throws, or it returns a value,
which is null (`none`) when the address is not in the database. -/
inductive GeoResult where
  | threw
  | value (result : Option CityRecord)
  deriving DecidableEq, Repr

/-- The loaded GeoIP database, seen through `geoReader.get`. -/
abbrev GeoReader := IP → GeoResult

/-- A row of `country_counts`: `(date, cc, count)`. -/
abbrev CountRow := Date × String × Nat

/-- The object `countryCounts`: own properties in insertion order, with numbers
as values. -/
abbrev CountryCounts := List (String × Nat)

/-- The relational store: the tables `dates`, `relays` and `country_counts`. -/
structure Store where
  dates : List Date
  relays : List (Date × IP)
  country_counts : List CountRow
  deriving DecidableEq, Repr

/-! ## `populate-country-data.js`: aggregation of one date (lines 58-73) -/

/-- The method `String.prototype.toLowerCase` on a string of ASCII characters:
the letters `A` to `Z` are folded, every other character is kept.  It is the
method of the code on the codes accepted by `isIsoCode`; outside ASCII the
method folds more letters than this function. -/
def toLowerCase (s : String) : String :=
  String.mk (s.data.map Char.toLower)

/-- The guard `result && result.country && result.country.iso_code` of line 65:
the ISO code when all three are truthy (the empty string is falsy). -/
def isoCodeOf : Option CityRecord → Option String
  | none => none
  | some r =>
    match r.country with
    | none => none
    | some c =>
      match c.iso_code with
      | none => none
      | some code => if code = "" then none else some code

/-- The expression `countryCounts[cc] || 0` of line 67, for a key `cc` that is
not a member of `Object.prototype`: the own property, or 0.  (For `__proto__`
or `constructor` the expression of the code yields the inherited member.) -/
def getCount (countryCounts : CountryCounts) (cc : String) : Nat :=
  match countryCounts with
  | [] => 0
  | (k, v) :: rest => if k = cc then v else getCount rest cc

/-- The assignment `countryCounts[cc] = v`, for a key `cc` that is not a member
of `Object.prototype`: an existing property keeps its place, a new one is added
after the others.  (For `__proto__` the assignment of the code reaches the
setter of the prototype and adds no property.) -/
def setCount (countryCounts : CountryCounts) (cc : String) (v : Nat) : CountryCounts :=
  match countryCounts with
  | [] => [(cc, v)]
  | (k, w) :: rest => if k = cc then (k, v) :: rest else (k, w) :: setCount rest cc v

/-- The loop variables `countryCounts` and `geoHits`. -/
structure Tally where
  countryCounts : CountryCounts
  geoHits : Nat
  deriving DecidableEq, Repr

/-- The body of the `try` block, lines 64-69: `none` when `geoReader.get`
throws, otherwise the loop variables after the block. -/
def tryBlock (geoReader : GeoReader) (t : Tally) (ip : IP) : Option Tally :=
  match geoReader ip with
  | GeoResult.threw => none
  | GeoResult.value result =>
    match isoCodeOf result with
    | some code =>
      let cc := toLowerCase code
      some ⟨setCount t.countryCounts cc (getCount t.countryCounts cc + 1), t.geoHits + 1⟩
    | none => some t

/-- One iteration of the loop of lines 62-73: the `try` block, with the empty
`catch` leaving the loop variables as they were. -/
def loopBody (geoReader : GeoReader) (t : Tally) (ip : IP) : Tally :=
  match tryBlock geoReader t ip with
  | some t' => t'
  | none => t

/-- The loop of lines 62-73 continued from given loop variables. -/
def countFrom (geoReader : GeoReader) (t : Tally) (ips : List IP) : Tally :=
  ips.foldl (loopBody geoReader) t

/-- Lines 59-73: the loop started from `countryCounts = {}` and `geoHits = 0`. -/
def countRelays (geoReader : GeoReader) (ips : List IP) : Tally :=
  countFrom geoReader ⟨[], 0⟩ ips

/-- The lowercase country code an address resolves to, if any: the key the
loop increments for this address. -/
def resolve (geoReader : GeoReader) (ip : IP) : Option String :=
  match geoReader ip with
  | GeoResult.threw => none
  | GeoResult.value result => (isoCodeOf result).map toLowerCase

/-- An ISO 3166-1 alpha-2 code, the form of `iso_code` in the GeoLite2 data:
two ASCII letters. -/
def isIsoCode (code : String) : Bool :=
  match code.data with
  | [a, b] => a.isAlpha && b.isAlpha
  | _ => false

/-- The lookup of the address yields no ISO code (it throws, or the guard of
line 65 fails) or yields an ISO 3166-1 alpha-2 code. -/
def hasIsoCode (geoReader : GeoReader) (ip : IP) : Bool :=
  match geoReader ip with
  | GeoResult.threw => true
  | GeoResult.value result =>
    match isoCodeOf result with
    | some code => isIsoCode code
    | none => true

/-! ## `populate-country-data.js`: the queries and the loop over dates -/

/-- The sub-query `SELECT DISTINCT date FROM country_counts` of line 35. -/
def distinctCountryDates (s : Store) : List Date :=
  (s.country_counts.map (fun row => row.1)).dedup

/-- The join `dates d LEFT JOIN c ON d.date = c.date`: every row of `dates`
paired with each matching row of `c`, or with NULL when none matches. -/
def leftJoin (dates : List Date) (c : List Date) : List (Date × Option Date) :=
  match dates with
  | [] => []
  | d :: rest =>
    (match c.filter (fun x => d = x) with
      | [] => [(d, none)]
      | m :: ms => (m :: ms).map (fun x => (d, some x))) ++ leftJoin rest c

/-- The query of lines 32-38: the dates of `dates` without a row in
`country_counts`, ordered by date. -/
def datesWithoutCountry (s : Store) : List Date :=
  (((leftJoin s.dates (distinctCountryDates s)).filter (fun row => row.2.isNone)).map
    (fun row => row.1)).insertionSort (fun a b => a ≤ b)

/-- The query `SELECT ip FROM relays WHERE date = ?` of lines 51-55. -/
def relaysOn (s : Store) (date : Date) : List IP :=
  (s.relays.filter (fun row => row.1 = date)).map (fun row => row.2)

/-- Line 76: `Object.entries(countryCounts).map(([cc, count]) => [date, cc, count])`,
for keys none of which is an array index: the entries come in insertion order.
(Keys that are array indices are enumerated first by the code.) -/
def countrySpecs (date : Date) (countryCounts : CountryCounts) : List CountRow :=
  countryCounts.map (fun entry => (date, entry.1, entry.2))

/-- Lines 58-78 for one date: the rows of the `INSERT` the job issues for the
date, or `none` when `countrySpecs.length > 0` fails and the `else` branch only
logs `no country data`. -/
def insertFor (geoReader : GeoReader) (date : Date) (relays : List IP) :
    Option (List CountRow) :=
  let tally := countRelays geoReader relays
  let specs := countrySpecs date tally.countryCounts
  if specs.length > 0 then some specs else none

/-- The numbers a date's log line prints: `relays.length` always, and on the
insert branch (line 86) `geoHits` and `Object.keys(countryCounts).length`. -/
structure Report where
  relays : Nat
  geolocated : Option Nat
  countries : Option Nat
  deriving DecidableEq, Repr

/-- The log line of lines 86 and 88 for one date. -/
def reportFor (geoReader : GeoReader) (date : Date) (relays : List IP) : Report :=
  let tally := countRelays geoReader relays
  let specs := countrySpecs date tally.countryCounts
  if specs.length > 0 then
    ⟨relays.length, some tally.geoHits, some tally.countryCounts.length⟩
  else ⟨relays.length, none, none⟩

/-- The part of the database that `db/db_init` fixes: which multi-row inserts
into `country_counts` the table accepts (keys, column types), given the rows
already stored.  A rejected statement stores nothing. -/
structure Schema where
  accepts : List CountRow → List CountRow → Bool

/-- The statement `INSERT INTO country_counts (date, cc, count) VALUES ?` of
lines 80-84: the store with the rows appended, or `none` when the callback
receives an error. -/
def insertCountryCounts (schema : Schema) (s : Store) (rows : List CountRow) :
    Option Store :=
  if schema.accepts s.country_counts rows then
    some { s with country_counts := s.country_counts ++ rows }
  else none

/-- The result of a run of `main`: the store it leaves, the `INSERT`
statements it issued in order, and whether `main` rejected (the `catch` of
line 96 then exits with code 1). -/
structure RunResult where
  store : Store
  statements : List (List CountRow)
  error : Bool
  deriving DecidableEq, Repr

/-- The loop of lines 43-90 over the rows of `datesWithoutCountry`. -/
def forDates (geoReader : GeoReader) (schema : Schema) :
    List Date → Store → RunResult
  | [], s => ⟨s, [], false⟩
  | date :: rest, s =>
    match insertFor geoReader date (relaysOn s date) with
    | some specs =>
      match insertCountryCounts schema s specs with
      | some s' =>
        let r := forDates geoReader schema rest s'
        ⟨r.store, specs :: r.statements, r.error⟩
      | none => ⟨s, [specs], true⟩
    | none => forDates geoReader schema rest s

/-- The function `main` of lines 18-94, after the GeoIP database is loaded and
the connection is open. -/
def main (geoReader : GeoReader) (schema : Schema) (s : Store) : RunResult :=
  forDates geoReader schema (datesWithoutCountry s) s

/-! ## `run-ingest.js` -/

/-- The three directories of lines 10-14, relative to the script. -/
def directories : List String :=
  ["data/sample", "data/historical", "data/current"]

/-- What a run of `run-ingest.js` does that is visible from outside. -/
inductive Event where
  | ingestFiles (dir : String)
  | callback (dir : String) (err : Bool)
  | exit (code : Nat)
  deriving DecidableEq, Repr

/-- The collaborators of `run-ingest.js`: whether `dbInit.initialize` calls back
with an error, and whether the call of `ingestFiles` made at a given index
calls back with an error. -/
structure Env where
  initErr : Bool
  ingestErr : Nat → Bool

/-- The function `processNext` of lines 25-41 together with the callback of
lines 34-40, from the current `index` and the events so far. -/
def processNext (env : Env) (index : Nat) (trace : List Event) : List Event :=
  if h : index ≥ directories.length then
    trace ++ [Event.exit 0]
  else
    let dir := directories.get ⟨index, by omega⟩
    processNext env (index + 1)
      (trace ++ [Event.ingestFiles dir, Event.callback dir (env.ingestErr index)])
termination_by directories.length - index

/-- The script: the callback of `dbInit.initialize`, lines 17-44. -/
def runIngest (env : Env) : List Event :=
  if env.initErr then [Event.exit 1]
  else processNext env 0 []

/-- The exit code of a run: the code of its `exit` event. -/
def exitCode (trace : List Event) : Option Nat :=
  trace.findSome? (fun e => match e with
    | Event.exit code => some code
    | _ => none)

/-- The directories on which `ingestFiles` was called, in call order. -/
def ingested (trace : List Event) : List String :=
  trace.filterMap (fun e => match e with
    | Event.ingestFiles dir => some dir
    | _ => none)

/-! ## Concrete inputs -/

/-- A GeoIP reader: `A` and `B` are in the United States, `C` is in Germany,
the lookup of `T` throws, and every other address is not in the database. -/
def geoSample : GeoReader := fun ip =>
  if ip = "A" ∨ ip = "B" then GeoResult.value (some ⟨some ⟨some "US"⟩⟩)
  else if ip = "C" then GeoResult.value (some ⟨some ⟨some "DE"⟩⟩)
  else if ip = "T" then GeoResult.threw
  else GeoResult.value none

/-- The reader `geoSample` with the lookup of `T` returning null. -/
def geoSampleQuiet : GeoReader := fun ip =>
  if ip = "T" then GeoResult.value none else geoSample ip

/-- A schema that accepts every insert. -/
def anySchema : Schema := ⟨fun _ _ => true⟩

/-- A store with three dates: day 1 has counts already, day 2 has relays that
resolve, and the only relay of day 3 is not in the GeoIP database. -/
def storeSample : Store :=
  { dates := [3, 1, 2]
    relays := [(1, "A"), (2, "A"), (2, "D"), (2, "C"), (3, "D"), (2, "B")]
    country_counts := [(1, "us", 1)] }

/-- A store whose only date has one relay, which is not in the GeoIP database. -/
def storeUnresolved : Store :=
  { dates := [1], relays := [(1, "D")], country_counts := [] }

/-- Collaborators of `run-ingest.js`: the database initialises, and the
ingestion of the first directory reports an error. -/
def envFirstFails : Env :=
  { initErr := false, ingestErr := fun index => decide (index = 0) }


/-! ## Lemmas on ISO codes -/

theorem isAlpha_toLower (c : Char) (h : c.isAlpha = true) : c.toLower.isAlpha = true := by
  by_cases hu : c.isUpper = true
  · have hc : c = Char.ofNat c.toNat := (Char.ofNat_toNat c).symm
    have hr : 65 ≤ c.toNat ∧ c.toNat ≤ 90 := by
      simp only [Char.isUpper, Bool.and_eq_true, decide_eq_true_eq] at hu
      exact ⟨hu.1, hu.2⟩
    obtain ⟨h1, h2⟩ := hr
    generalize c.toNat = n at hc h1 h2
    subst hc
    interval_cases n <;> decide
  · have : c.toLower = c := by
      simp only [Char.isUpper, Bool.and_eq_true, decide_eq_true_eq] at hu
      unfold Char.toLower
      simp only
      split
      · rename_i hup
        exact absurd ⟨hup.1, hup.2⟩ hu
      · rfl
    rw [this]
    exact h

theorem isIsoCode_toLowerCase (code : String) (h : isIsoCode code = true) :
    isIsoCode (toLowerCase code) = true := by
  unfold isIsoCode at h ⊢
  unfold toLowerCase
  simp only
  split at h
  · rename_i a b hab
    rw [hab]
    simp only [List.map_cons, List.map_nil]
    simp only [Bool.and_eq_true] at h ⊢
    exact ⟨isAlpha_toLower a h.1, isAlpha_toLower b h.2⟩
  · cases h

theorem isIsoCode_length (code : String) (h : isIsoCode code = true) :
    code.data.length = 2 := by
  unfold isIsoCode at h
  split at h
  · rename_i a b hab
    rw [hab]
    rfl
  · cases h

theorem isIsoCode_of_resolve (geoReader : GeoReader) (ip : IP) (cc : String)
    (hiso : hasIsoCode geoReader ip = true) (hres : resolve geoReader ip = some cc) :
    isIsoCode cc = true := by
  unfold hasIsoCode at hiso
  unfold resolve at hres
  cases hg : geoReader ip with
  | threw =>
    rw [hg] at hres
    cases hres
  | value result =>
    rw [hg] at hres hiso
    simp only at hres hiso
    cases hc : isoCodeOf result with
    | none =>
      rw [hc] at hres
      cases hres
    | some code =>
      rw [hc] at hres hiso
      have hcc : toLowerCase code = cc := Option.some.inj hres
      rw [← hcc]
      exact isIsoCode_toLowerCase code hiso

theorem isIsoCode_excludes :
    isIsoCode "__proto__" = false ∧ isIsoCode "constructor" = false ∧
    isIsoCode "10" = false ∧ isIsoCode "" = false ∧ isIsoCode "US" = true := by
  decide

/-! ## Lemmas on the counter object -/

theorem getCount_setCount_self (m : CountryCounts) (cc : String) (v : Nat) :
    getCount (setCount m cc v) cc = v := by
  induction m with
  | nil => simp [setCount, getCount]
  | cons e rest ih =>
    obtain ⟨k, w⟩ := e
    by_cases h : k = cc
    · simp [setCount, getCount, h]
    · simp [setCount, getCount, h, ih]

theorem getCount_setCount_ne (m : CountryCounts) (cc other : String) (v : Nat)
    (h : cc ≠ other) : getCount (setCount m cc v) other = getCount m other := by
  induction m with
  | nil => simp [setCount, getCount, h]
  | cons e rest ih =>
    obtain ⟨k, w⟩ := e
    by_cases hk : k = cc
    · subst hk
      simp [setCount, getCount, h]
    · by_cases ho : k = other
      · subst ho
        simp [setCount, getCount, hk]
      · simp [setCount, getCount, hk, ho, ih]

theorem keys_setCount (m : CountryCounts) (cc : String) (v : Nat) :
    (setCount m cc v).map Prod.fst =
      if cc ∈ m.map Prod.fst then m.map Prod.fst else m.map Prod.fst ++ [cc] := by
  induction m with
  | nil => simp [setCount]
  | cons e rest ih =>
    obtain ⟨k, w⟩ := e
    by_cases hk : k = cc
    · subst hk
      simp [setCount]
    · have hne : ¬ cc = k := fun h => hk h.symm
      simp only [setCount, hk, if_false, List.map_cons, ih, List.mem_cons, hne, false_or]
      split <;> simp

theorem sum_setCount_succ (m : CountryCounts) (cc : String) :
    ((setCount m cc (getCount m cc + 1)).map Prod.snd).sum = (m.map Prod.snd).sum + 1 := by
  induction m with
  | nil => simp [setCount, getCount]
  | cons e rest ih =>
    obtain ⟨k, w⟩ := e
    by_cases hk : k = cc
    · simp [setCount, getCount, hk]
      omega
    · simp [setCount, getCount, hk, ih]
      omega

theorem pos_setCount (m : CountryCounts) (cc : String) (v : Nat) (hv : 1 ≤ v)
    (hm : ∀ e ∈ m, 1 ≤ e.2) : ∀ e ∈ setCount m cc v, 1 ≤ e.2 := by
  induction m with
  | nil =>
    intro e he
    simp [setCount] at he
    subst he
    exact hv
  | cons e0 rest ih =>
    obtain ⟨k, w⟩ := e0
    intro e he
    by_cases hk : k = cc
    · simp only [setCount, hk, if_true, List.mem_cons] at he
      rcases he with he | he
      · subst he
        exact hv
      · exact hm e (List.mem_cons_of_mem _ he)
    · simp only [setCount, hk, if_false, List.mem_cons] at he
      rcases he with he | he
      · subst he
        exact hm _ (List.mem_cons_self _ _)
      · exact ih (fun e he => hm e (List.mem_cons_of_mem _ he)) e he

theorem getCount_of_mem (m : CountryCounts) (hnd : (m.map Prod.fst).Nodup)
    (e : String × Nat) (he : e ∈ m) : getCount m e.1 = e.2 := by
  induction m with
  | nil => cases he
  | cons e0 rest ih =>
    obtain ⟨k, w⟩ := e0
    simp only [List.map_cons, List.nodup_cons] at hnd
    rcases List.mem_cons.mp he with h | h
    · subst h
      simp [getCount]
    · have hne : k ≠ e.1 := by
        intro hk
        apply hnd.1
        rw [hk]
        exact List.mem_map_of_mem Prod.fst h
      simp [getCount, hne, ih hnd.2 h]

/-! ## Lemmas on the aggregation loop -/

theorem loopBody_eq (geoReader : GeoReader) (t : Tally) (ip : IP) :
    loopBody geoReader t ip =
      match resolve geoReader ip with
      | some cc => ⟨setCount t.countryCounts cc (getCount t.countryCounts cc + 1), t.geoHits + 1⟩
      | none => t := by
  unfold loopBody tryBlock resolve
  cases geoReader ip with
  | threw => rfl
  | value result =>
    cases h : isoCodeOf result <;> simp [h]

theorem countFrom_cons (geoReader : GeoReader) (t : Tally) (ip : IP) (ips : List IP) :
    countFrom geoReader t (ip :: ips) = countFrom geoReader (loopBody geoReader t ip) ips := rfl

theorem countFrom_append (geoReader : GeoReader) (t : Tally) (xs ys : List IP) :
    countFrom geoReader t (xs ++ ys) = countFrom geoReader (countFrom geoReader t xs) ys := by
  simp [countFrom, List.foldl_append]

theorem getCount_countFrom (geoReader : GeoReader) (ips : List IP) (t : Tally) (cc : String) :
    getCount (countFrom geoReader t ips).countryCounts cc =
      getCount t.countryCounts cc + ips.countP (fun ip => resolve geoReader ip = some cc) := by
  induction ips generalizing t with
  | nil => simp [countFrom]
  | cons ip rest ih =>
    rw [countFrom_cons, ih, loopBody_eq, List.countP_cons]
    cases h : resolve geoReader ip with
    | none => simp
    | some c =>
      by_cases hc : c = cc
      · subst hc
        simp [getCount_setCount_self]
        omega
      · simp [getCount_setCount_ne _ _ _ _ hc, hc]

theorem geoHits_countFrom (geoReader : GeoReader) (ips : List IP) (t : Tally) :
    (countFrom geoReader t ips).geoHits =
      t.geoHits + ips.countP (fun ip => (resolve geoReader ip).isSome) := by
  induction ips generalizing t with
  | nil => simp [countFrom]
  | cons ip rest ih =>
    rw [countFrom_cons, ih, loopBody_eq, List.countP_cons]
    cases h : resolve geoReader ip with
    | none => simp
    | some c =>
      simp
      omega

theorem sum_countFrom (geoReader : GeoReader) (ips : List IP) (t : Tally) :
    ((countFrom geoReader t ips).countryCounts.map Prod.snd).sum =
      (t.countryCounts.map Prod.snd).sum +
        ips.countP (fun ip => (resolve geoReader ip).isSome) := by
  induction ips generalizing t with
  | nil => simp [countFrom]
  | cons ip rest ih =>
    rw [countFrom_cons, ih, loopBody_eq, List.countP_cons]
    cases h : resolve geoReader ip with
    | none => simp
    | some c =>
      simp [sum_setCount_succ]
      omega

theorem keys_countFrom (geoReader : GeoReader) (ips : List IP) (t : Tally) (cc : String) :
    cc ∈ (countFrom geoReader t ips).countryCounts.map Prod.fst ↔
      cc ∈ t.countryCounts.map Prod.fst ∨ ∃ ip ∈ ips, resolve geoReader ip = some cc := by
  induction ips generalizing t with
  | nil => simp [countFrom]
  | cons ip rest ih =>
    rw [countFrom_cons, ih, loopBody_eq]
    cases h : resolve geoReader ip with
    | none => simp [h]
    | some c =>
      simp only [keys_setCount, List.exists_mem_cons_iff, h, Option.some.injEq]
      split
      · rename_i hmem
        constructor
        · rintro (h1 | h1)
          · exact Or.inl h1
          · exact Or.inr (Or.inr h1)
        · rintro (h1 | h1 | h1)
          · exact Or.inl h1
          · subst h1
            exact Or.inl hmem
          · exact Or.inr h1
      · simp only [List.mem_append, List.mem_singleton]
        constructor
        · rintro ((h1 | h1) | h1)
          · exact Or.inl h1
          · exact Or.inr (Or.inl h1.symm)
          · exact Or.inr (Or.inr h1)
        · rintro (h1 | h1 | h1)
          · exact Or.inl (Or.inl h1)
          · exact Or.inl (Or.inr h1.symm)
          · exact Or.inr h1

theorem nodup_countFrom (geoReader : GeoReader) (ips : List IP) (t : Tally)
    (ht : (t.countryCounts.map Prod.fst).Nodup) :
    ((countFrom geoReader t ips).countryCounts.map Prod.fst).Nodup := by
  induction ips generalizing t with
  | nil => simpa [countFrom] using ht
  | cons ip rest ih =>
    rw [countFrom_cons]
    apply ih
    rw [loopBody_eq]
    cases h : resolve geoReader ip with
    | none => simpa using ht
    | some c =>
      simp only [keys_setCount]
      split
      · exact ht
      · rename_i hmem
        exact List.Nodup.append ht (List.nodup_singleton c) (by simpa using hmem)

theorem pos_countFrom (geoReader : GeoReader) (ips : List IP) (t : Tally)
    (ht : ∀ e ∈ t.countryCounts, 1 ≤ e.2) :
    ∀ e ∈ (countFrom geoReader t ips).countryCounts, 1 ≤ e.2 := by
  induction ips generalizing t with
  | nil => simpa [countFrom] using ht
  | cons ip rest ih =>
    rw [countFrom_cons]
    apply ih
    rw [loopBody_eq]
    cases h : resolve geoReader ip with
    | none => simpa using ht
    | some c => exact pos_setCount _ _ _ (by omega) ht


/-! ## Lemmas on the queries -/

theorem leftJoin_unmatched (dates c : List Date) :
    ((leftJoin dates c).filter (fun row => row.2.isNone)).map (fun row => row.1) =
      dates.filter (fun d => decide (d ∉ c)) := by
  induction dates with
  | nil => simp [leftJoin]
  | cons d rest ih =>
    unfold leftJoin
    rw [List.filter_append, List.map_append, ih]
    by_cases hd : d ∈ c
    · have hne : c.filter (fun x => decide (d = x)) ≠ [] := by
        intro hnil
        have : d ∈ c.filter (fun x => decide (d = x)) := by
          simp [List.mem_filter, hd]
        rw [hnil] at this
        cases this
      cases hf : c.filter (fun x => decide (d = x)) with
      | nil => exact absurd hf hne
      | cons m ms =>
        have hnone : ((m :: ms).map (fun x => (d, some x))).filter
            (fun row : Date × Option Date => row.2.isNone) = [] := by
          rw [List.filter_eq_nil_iff]
          intro row hrow
          obtain ⟨x, _, hx⟩ := List.mem_map.mp hrow
          subst hx
          simp
        simp only [hnone, List.map_nil, List.nil_append]
        rw [List.filter_cons]
        simp [hd]
    · have hf : c.filter (fun x => decide (d = x)) = [] := by
        rw [List.filter_eq_nil_iff]
        intro x hx
        simp only [decide_eq_true_eq]
        intro hdx
        exact hd (hdx ▸ hx)
      rw [hf, List.filter_cons]
      simp [hd]

theorem datesWithoutCountry_eq (s : Store) :
    datesWithoutCountry s =
      (s.dates.filter (fun d => decide (d ∉ s.country_counts.map (fun row => row.1)))).insertionSort
        (fun a b => a ≤ b) := by
  unfold datesWithoutCountry
  rw [leftJoin_unmatched]
  congr 1
  apply List.filter_congr
  intro d _
  simp [distinctCountryDates]

theorem mem_datesWithoutCountry (s : Store) (d : Date) :
    d ∈ datesWithoutCountry s ↔ d ∈ s.dates ∧ ∀ row ∈ s.country_counts, row.1 ≠ d := by
  rw [datesWithoutCountry_eq, (List.perm_insertionSort _ _).mem_iff, List.mem_filter]
  simp only [List.mem_map, not_exists, not_and, decide_eq_true_eq, ne_eq]

theorem sorted_datesWithoutCountry (s : Store) :
    (datesWithoutCountry s).Sorted (fun a b => a ≤ b) := by
  rw [datesWithoutCountry_eq]
  exact List.sorted_insertionSort _ _

theorem nodup_datesWithoutCountry (s : Store) (h : s.dates.Nodup) :
    (datesWithoutCountry s).Nodup := by
  rw [datesWithoutCountry_eq, (List.perm_insertionSort _ _).nodup_iff]
  exact h.filter _

/-! ## Lemmas on the loop over dates -/

theorem relaysOn_congr (s s' : Store) (h : s'.relays = s.relays) (d : Date) :
    relaysOn s' d = relaysOn s d := by
  simp [relaysOn, h]

theorem insertCountryCounts_some (schema : Schema) (s s' : Store) (rows : List CountRow)
    (h : insertCountryCounts schema s rows = some s') :
    s'.dates = s.dates ∧ s'.relays = s.relays ∧
      s'.country_counts = s.country_counts ++ rows := by
  unfold insertCountryCounts at h
  split at h
  · cases h
    simp
  · cases h

theorem insertFor_dates (geoReader : GeoReader) (date : Date) (ips : List IP)
    (rows : List CountRow) (h : insertFor geoReader date ips = some rows) :
    rows ≠ [] ∧ ∀ row ∈ rows, row.1 = date := by
  unfold insertFor at h
  simp only at h
  split at h
  · rename_i hlen
    cases h
    refine ⟨?_, ?_⟩
    · intro hnil
      rw [hnil] at hlen
      simp at hlen
    · intro row hrow
      simp only [countrySpecs, List.mem_map] at hrow
      obtain ⟨e, _, he⟩ := hrow
      rw [← he]
  · cases h

theorem forDates_spec (geoReader : GeoReader) (schema : Schema) (ds : List Date) (s : Store) :
    (forDates geoReader schema ds s).store.dates = s.dates ∧
    (forDates geoReader schema ds s).store.relays = s.relays ∧
    (forDates geoReader schema ds s).statements <+:
      ds.filterMap (fun d => insertFor geoReader d (relaysOn s d)) ∧
    ((forDates geoReader schema ds s).error = false →
      (forDates geoReader schema ds s).statements =
        ds.filterMap (fun d => insertFor geoReader d (relaysOn s d)) ∧
      (forDates geoReader schema ds s).store.country_counts =
        s.country_counts ++ (forDates geoReader schema ds s).statements.flatten) ∧
    ∃ added, (forDates geoReader schema ds s).store.country_counts = s.country_counts ++ added ∧
      ∀ row ∈ added, ∃ rows ∈ (forDates geoReader schema ds s).statements, row ∈ rows := by
  induction ds generalizing s with
  | nil => simp [forDates]
  | cons d rest ih =>
    unfold forDates
    cases hins : insertFor geoReader d (relaysOn s d) with
    | none =>
      simp only [List.filterMap_cons, hins]
      exact ih s
    | some specs =>
      simp only [List.filterMap_cons, hins]
      cases hdb : insertCountryCounts schema s specs with
      | none =>
        simp only
        refine ⟨trivial, trivial, ?_, ?_, ⟨[], by simp, by simp⟩⟩
        · exact List.prefix_iff_eq_append.mpr (by simp)
        · intro h
          cases h
      | some s' =>
        simp only
        obtain ⟨hd, hr, hc⟩ := insertCountryCounts_some schema s s' specs hdb
        obtain ⟨ih1, ih2, ih3, ih4, added, ih5, ih6⟩ := ih s'
        have hrel : (fun d => insertFor geoReader d (relaysOn s' d)) =
            (fun d => insertFor geoReader d (relaysOn s d)) := by
          funext x
          rw [relaysOn_congr s s' hr]
        rw [hrel] at ih3 ih4
        refine ⟨ih1.trans hd, ih2.trans hr, ?_, ?_, ⟨specs ++ added, ?_, ?_⟩⟩
        · exact (List.prefix_cons_inj specs).mpr ih3
        · intro herr
          obtain ⟨h1, h2⟩ := ih4 herr
          refine ⟨by rw [h1], ?_⟩
          rw [h2, hc, List.flatten_cons, List.append_assoc]
        · rw [ih5, hc, List.append_assoc]
        · intro row hrow
          rcases List.mem_append.mp hrow with h | h
          · exact ⟨specs, List.mem_cons_self _ _, h⟩
          · obtain ⟨rows, hrows, hmem⟩ := ih6 row h
            exact ⟨rows, List.mem_cons_of_mem _ hrows, hmem⟩


/-! ## Aggregation of one date: C1, C6, C8, C10 -/

theorem resolve_iff (geoReader : GeoReader) (ip : IP) (cc : String) :
    resolve geoReader ip = some cc ↔
      ∃ r c code, geoReader ip = GeoResult.value (some r) ∧ r.country = some c ∧
        c.iso_code = some code ∧ code ≠ "" ∧ toLowerCase code = cc := by
  unfold resolve
  cases hg : geoReader ip with
  | threw => simp
  | value result =>
    cases result with
    | none => simp [isoCodeOf]
    | some r =>
      obtain ⟨country⟩ := r
      cases country with
      | none => simp [isoCodeOf]
      | some c =>
        obtain ⟨iso⟩ := c
        cases iso with
        | none => simp [isoCodeOf]
        | some code =>
          by_cases hc : code = ""
          · simp [isoCodeOf, hc]
          · simp [isoCodeOf, hc]

theorem entries_countRelays (geoReader : GeoReader) (ips : List IP) (cc : String) (n : Nat) :
    (cc, n) ∈ (countRelays geoReader ips).countryCounts ↔
      n = ips.countP (fun ip => resolve geoReader ip = some cc) ∧ 1 ≤ n := by
  have hnd : ((countRelays geoReader ips).countryCounts.map Prod.fst).Nodup :=
    nodup_countFrom geoReader ips ⟨[], 0⟩ (by simp)
  have hget := getCount_countFrom geoReader ips ⟨[], 0⟩ cc
  simp only [getCount, Nat.zero_add] at hget
  constructor
  · intro hmem
    have h1 := getCount_of_mem _ hnd _ hmem
    have h2 := pos_countFrom geoReader ips ⟨[], 0⟩ (by simp) _ hmem
    simp only at h1 h2
    exact ⟨by rw [← h1]; exact hget, h2⟩
  · rintro ⟨hn, hpos⟩
    have hex : ∃ ip ∈ ips, resolve geoReader ip = some cc := by
      have : 0 < ips.countP (fun ip => resolve geoReader ip = some cc) := by omega
      obtain ⟨ip, hip, hp⟩ := List.countP_pos_iff.mp this
      exact ⟨ip, hip, by simpa using hp⟩
    have hkey : cc ∈ (countRelays geoReader ips).countryCounts.map Prod.fst :=
      (keys_countFrom geoReader ips ⟨[], 0⟩ cc).mpr (Or.inr hex)
    obtain ⟨e, he, hfst⟩ := List.mem_map.mp hkey
    obtain ⟨k, v⟩ := e
    simp only at hfst
    subst hfst
    have h1 := getCount_of_mem _ hnd _ he
    simp only at h1
    have : v = n := by
      rw [hn, ← h1]
      exact hget
    rw [← this]
    exact he

theorem keys_isIsoCode (geoReader : GeoReader) (ips : List IP)
    (hiso : ∀ ip ∈ ips, hasIsoCode geoReader ip = true) (cc : String)
    (hcc : cc ∈ (countRelays geoReader ips).countryCounts.map Prod.fst) :
    isIsoCode cc = true := by
  have hkeys := (keys_countFrom geoReader ips ⟨[], 0⟩ cc).mp hcc
  simp only [List.map_nil, List.not_mem_nil, false_or] at hkeys
  obtain ⟨ip, hip, hres⟩ := hkeys
  exact isIsoCode_of_resolve geoReader ip cc (hiso ip hip) hres

/-- C1: when the lookups of the addresses yield ISO 3166-1 alpha-2 codes, the
counter object built by the loop maps every country code to the number of
addresses of the sequence that resolve to it (a record with a non-empty ISO
code which, lowercased, is that code); its entries are exactly the codes with
at least one such address, each once and each a two-letter code, so there is
no entry for unresolved addresses.  For `[A->us, B->us, C->de, D->unresolved]`
the object is `{us: 2, de: 1}` and the relay total printed is 4. -/
theorem C1_counter_map (geoReader : GeoReader) (ips : List IP)
    (hiso : ∀ ip ∈ ips, hasIsoCode geoReader ip = true) :
    (∀ cc, getCount (countRelays geoReader ips).countryCounts cc =
        ips.countP (fun ip => resolve geoReader ip = some cc)) ∧
    (∀ cc n, (cc, n) ∈ (countRelays geoReader ips).countryCounts ↔
        n = ips.countP (fun ip => resolve geoReader ip = some cc) ∧ 1 ≤ n) ∧
    ((countRelays geoReader ips).countryCounts.map Prod.fst).Nodup ∧
    (∀ cc ∈ (countRelays geoReader ips).countryCounts.map Prod.fst, isIsoCode cc = true) ∧
    (∀ ip ∈ ips, ∀ cc, resolve geoReader ip = some cc ↔
        ∃ r c code, geoReader ip = GeoResult.value (some r) ∧ r.country = some c ∧
          c.iso_code = some code ∧ isIsoCode code = true ∧ toLowerCase code = cc) ∧
    (countRelays geoSample ["A", "B", "C", "D"]).countryCounts = [("us", 2), ("de", 1)] ∧
    (reportFor geoSample 1 ["A", "B", "C", "D"]).relays = 4 := by
  refine ⟨?_, entries_countRelays geoReader ips, ?_, keys_isIsoCode geoReader ips hiso, ?_,
    by decide, by decide⟩
  · intro cc
    have h := getCount_countFrom geoReader ips ⟨[], 0⟩ cc
    simpa [getCount] using h
  · exact nodup_countFrom geoReader ips ⟨[], 0⟩ (by simp)
  · intro ip hip cc
    rw [resolve_iff]
    constructor
    · rintro ⟨r, c, code, hg, hc, hcode, _, hlow⟩
      refine ⟨r, c, code, hg, hc, hcode, ?_, hlow⟩
      have h := hiso ip hip
      unfold hasIsoCode at h
      rw [hg] at h
      simpa [isoCodeOf, hc, hcode, ‹code ≠ ""›] using h
    · rintro ⟨r, c, code, hg, hc, hcode, hcodeIso, hlow⟩
      refine ⟨r, c, code, hg, hc, hcode, ?_, hlow⟩
      intro hempty
      rw [hempty] at hcodeIso
      exact absurd hcodeIso (by decide)

/-- C1 at a concrete input: the lookups of `A`, `B`, `C`, `D` yield `US`, `US`,
`DE` and nothing, and the object counts 2 for `us`, 1 for `de` and 0 for `fr`. -/
theorem C1_counter_map_witness :
    (countRelays geoSample ["A", "B", "C", "D"]).countryCounts = [("us", 2), ("de", 1)] ∧
    getCount (countRelays geoSample ["A", "B", "C", "D"]).countryCounts "fr" =
      (["A", "B", "C", "D"] : List IP).countP (fun ip => resolve geoSample ip = some "fr") ∧
    (["A", "B", "C", "D"] : List IP).countP (fun ip => resolve geoSample ip = some "fr") = 0 :=
  ⟨by decide, (C1_counter_map geoSample ["A", "B", "C", "D"] (by decide)).1 "fr", by decide⟩

theorem loopBody_congr (geoReader geoReader' : GeoReader) (t : Tally) (ip : IP)
    (h : geoReader' ip = geoReader ip ∨
      (geoReader ip = GeoResult.threw ∧ resolve geoReader' ip = none)) :
    loopBody geoReader t ip = loopBody geoReader' t ip := by
  rcases h with h | ⟨h1, h2⟩
  · simp [loopBody, tryBlock, h]
  · rw [loopBody_eq geoReader', h2]
    simp [loopBody, tryBlock, h1]

/-- C6: a lookup that throws is swallowed by the `catch`: the iteration leaves
the loop variables as they were, the loop goes on with the remaining addresses
from there, and the counter object and `geoHits` are those obtained when the
lookups that throw resolve to no country instead. -/
theorem C6_throw_as_unresolved (geoReader geoReader' : GeoReader) (ips : List IP)
    (h : ∀ ip ∈ ips, geoReader' ip = geoReader ip ∨
      (geoReader ip = GeoResult.threw ∧ resolve geoReader' ip = none)) :
    countRelays geoReader ips = countRelays geoReader' ips ∧
    (∀ t ip, geoReader ip = GeoResult.threw →
      tryBlock geoReader t ip = none ∧ loopBody geoReader t ip = t) ∧
    (∀ t pre ip post, ips = pre ++ ip :: post → geoReader ip = GeoResult.threw →
      countFrom geoReader t ips = countFrom geoReader (countFrom geoReader t pre) post) := by
  refine ⟨?_, ?_, ?_⟩
  · unfold countRelays countFrom
    apply List.foldl_ext
    intro t ip hip
    exact loopBody_congr geoReader geoReader' t ip (h ip hip)
  · intro t ip hthrow
    simp [loopBody, tryBlock, hthrow]
  · intro t pre ip post hips hthrow
    rw [hips, countFrom_append, countFrom_cons]
    simp [loopBody, tryBlock, hthrow]

/-- C6 at a concrete input: the lookup of `T` throws under `geoSample` and
returns null under `geoSampleQuiet`. -/
theorem C6_throw_as_unresolved_witness :
    geoSample "T" = GeoResult.threw ∧
    countRelays geoSample ["A", "T", "C", "B"] = ⟨[("us", 2), ("de", 1)], 3⟩ ∧
    countRelays geoSample ["A", "T", "C", "B"] =
      countRelays geoSampleQuiet ["A", "T", "C", "B"] :=
  ⟨by decide, by decide,
    (C6_throw_as_unresolved geoSample geoSampleQuiet ["A", "T", "C", "B"] (by decide)).1⟩

/-- C8: when the lookups of the addresses yield ISO 3166-1 alpha-2 codes, the
counts of the counter object, whose keys are two-letter codes, add up to
`geoHits`, the number of addresses that resolved; the relay total printed is
the length of the sequence; so the sum of the counts is at most the relay
total, with equality exactly when every address resolved. -/
theorem C8_sum_of_counts (geoReader : GeoReader) (date : Date) (ips : List IP)
    (hiso : ∀ ip ∈ ips, hasIsoCode geoReader ip = true) :
    (∀ cc ∈ (countRelays geoReader ips).countryCounts.map Prod.fst, isIsoCode cc = true) ∧
    ((countRelays geoReader ips).countryCounts.map Prod.snd).sum =
      (countRelays geoReader ips).geoHits ∧
    (countRelays geoReader ips).geoHits =
      ips.countP (fun ip => (resolve geoReader ip).isSome) ∧
    (reportFor geoReader date ips).relays = ips.length ∧
    ((countRelays geoReader ips).countryCounts.map Prod.snd).sum ≤
      (reportFor geoReader date ips).relays ∧
    (((countRelays geoReader ips).countryCounts.map Prod.snd).sum =
        (reportFor geoReader date ips).relays ↔
      ∀ ip ∈ ips, resolve geoReader ip ≠ none) := by
  have hsum := sum_countFrom geoReader ips ⟨[], 0⟩
  have hhits := geoHits_countFrom geoReader ips ⟨[], 0⟩
  simp only [List.map_nil, List.sum_nil, Nat.zero_add] at hsum hhits
  have hrep : (reportFor geoReader date ips).relays = ips.length := by
    unfold reportFor
    simp only
    split <;> rfl
  refine ⟨keys_isIsoCode geoReader ips hiso, ?_, hhits, hrep, ?_, ?_⟩
  · unfold countRelays
    rw [hsum, hhits]
  · unfold countRelays
    rw [hsum, hrep]
    exact List.countP_le_length _
  · unfold countRelays
    rw [hsum, hrep, List.countP_eq_length]
    constructor
    · intro hall ip hip
      have := hall ip hip
      intro hnone
      simp [hnone] at this
    · intro hall ip hip
      have := hall ip hip
      cases hr : resolve geoReader ip with
      | none => exact absurd hr this
      | some cc => simp

/-- C8 at a concrete input: of the four addresses three resolve, the counts add
up to 3 and the relay total printed is 4. -/
theorem C8_sum_of_counts_witness :
    (countRelays geoSample ["A", "B", "C", "D"]).geoHits = 3 ∧
    (reportFor geoSample 1 ["A", "B", "C", "D"]).relays = 4 ∧
    ((countRelays geoSample ["A", "B", "C", "D"]).countryCounts.map Prod.snd).sum =
      (countRelays geoSample ["A", "B", "C", "D"]).geoHits :=
  ⟨by decide, by decide,
    (C8_sum_of_counts geoSample 1 ["A", "B", "C", "D"] (by decide)).2.1⟩

theorem insertFor_eq (geoReader : GeoReader) (date : Date) (ips : List IP) :
    insertFor geoReader date ips =
      if (countRelays geoReader ips).countryCounts = [] then none
      else some (countrySpecs date (countRelays geoReader ips).countryCounts) := by
  unfold insertFor
  simp only [countrySpecs, List.length_map]
  cases h : (countRelays geoReader ips).countryCounts <;> simp

theorem countryCounts_eq_nil_iff (geoReader : GeoReader) (ips : List IP) :
    (countRelays geoReader ips).countryCounts = [] ↔
      ∀ ip ∈ ips, resolve geoReader ip = none := by
  have hkeys := keys_countFrom geoReader ips ⟨[], 0⟩
  simp only [List.map_nil, List.not_mem_nil, false_or] at hkeys
  constructor
  · intro hnil ip hip
    cases hr : resolve geoReader ip with
    | none => rfl
    | some cc =>
      have := (hkeys cc).mpr ⟨ip, hip, hr⟩
      unfold countRelays at hnil
      rw [hnil] at this
      simp at this
  · intro hall
    cases hm : (countRelays geoReader ips).countryCounts with
    | nil => rfl
    | cons e rest =>
      have hmem : e.1 ∈ (countFrom geoReader ⟨[], 0⟩ ips).countryCounts.map Prod.fst := by
        unfold countRelays at hm
        rw [hm]
        simp
      obtain ⟨ip, hip, hr⟩ := (hkeys e.1).mp hmem
      rw [hall ip hip] at hr
      cases hr

theorem insertFor_eq_none_iff (geoReader : GeoReader) (date : Date) (ips : List IP) :
    insertFor geoReader date ips = none ↔ ∀ ip ∈ ips, resolve geoReader ip = none := by
  rw [insertFor_eq, ← countryCounts_eq_nil_iff]
  split <;> simp_all

theorem insertFor_isIsoCode (geoReader : GeoReader) (date : Date) (ips : List IP)
    (hiso : ∀ ip ∈ ips, hasIsoCode geoReader ip = true) (rows : List CountRow)
    (hins : insertFor geoReader date ips = some rows) (row : CountRow) (hrow : row ∈ rows) :
    isIsoCode row.2.1 = true := by
  rw [insertFor_eq] at hins
  split at hins
  · cases hins
  · have hrows := (Option.some.inj hins).symm
    rw [hrows, countrySpecs, List.mem_map] at hrow
    obtain ⟨e, he, heq⟩ := hrow
    rw [← heq]
    exact keys_isIsoCode geoReader ips hiso e.1 (List.mem_map_of_mem Prod.fst he)

theorem hasIsoCode_relaysOn (geoReader : GeoReader) (s : Store)
    (hiso : ∀ row ∈ s.relays, hasIsoCode geoReader row.2 = true) (d : Date) :
    ∀ ip ∈ relaysOn s d, hasIsoCode geoReader ip = true := by
  intro ip hip
  simp only [relaysOn, List.mem_map, List.mem_filter, decide_eq_true_eq] at hip
  obtain ⟨row, ⟨hrow, _⟩, hip⟩ := hip
  rw [← hip]
  exact hiso row hrow

theorem added_rows (geoReader : GeoReader) (schema : Schema) (ds : List Date) (s : Store)
    (row : CountRow) (hrow : row ∈ (forDates geoReader schema ds s).store.country_counts) :
    row ∈ s.country_counts ∨
      ∃ d ∈ ds, ∃ rows, insertFor geoReader d (relaysOn s d) = some rows ∧ row ∈ rows := by
  obtain ⟨_, _, hpre, _, added, hcc, hadded⟩ := forDates_spec geoReader schema ds s
  rw [hcc] at hrow
  rcases List.mem_append.mp hrow with h | h
  · exact Or.inl h
  · right
    obtain ⟨rows, hrows, hmem⟩ := hadded row h
    have hfm := hpre.subset hrows
    obtain ⟨d, hd, hins⟩ := List.mem_filterMap.mp hfm
    exact ⟨d, hd, rows, hins, hmem⟩

theorem committed_rows (geoReader : GeoReader) (schema : Schema) (ds : List Date) (s : Store)
    (herr : (forDates geoReader schema ds s).error = false) (d : Date) (hd : d ∈ ds)
    (rows : List CountRow) (hins : insertFor geoReader d (relaysOn s d) = some rows)
    (row : CountRow) (hrow : row ∈ rows) :
    row ∈ (forDates geoReader schema ds s).store.country_counts := by
  obtain ⟨_, _, _, hok, _⟩ := forDates_spec geoReader schema ds s
  obtain ⟨hst, hcc⟩ := hok herr
  rw [hcc, hst]
  apply List.mem_append_right
  rw [List.mem_flatten]
  exact ⟨rows, List.mem_filterMap.mpr ⟨d, hd, hins⟩, hrow⟩

theorem forDates_nothing (geoReader : GeoReader) (schema : Schema) (ds : List Date) (s : Store)
    (h : ∀ d ∈ ds, insertFor geoReader d (relaysOn s d) = none) :
    forDates geoReader schema ds s = ⟨s, [], false⟩ := by
  induction ds with
  | nil => rfl
  | cons d rest ih =>
    unfold forDates
    rw [h d (List.mem_cons_self _ _)]
    exact ih (fun d' hd' => h d' (List.mem_cons_of_mem _ hd'))

theorem mem_missing_after_main (geoReader : GeoReader) (schema : Schema) (s : Store)
    (herr : (main geoReader schema s).error = false) (d : Date) :
    d ∈ datesWithoutCountry (main geoReader schema s).store ↔
      d ∈ datesWithoutCountry s ∧ ∀ ip ∈ relaysOn s d, resolve geoReader ip = none := by
  obtain ⟨hdates, _, _, _, added, hcc, _⟩ :=
    forDates_spec geoReader schema (datesWithoutCountry s) s
  unfold main at herr ⊢
  rw [mem_datesWithoutCountry, mem_datesWithoutCountry, hdates]
  constructor
  · rintro ⟨hd, hnone⟩
    have hbefore : ∀ row ∈ s.country_counts, row.1 ≠ d := by
      intro row hrow
      apply hnone
      rw [hcc]
      exact List.mem_append_left _ hrow
    refine ⟨⟨hd, hbefore⟩, ?_⟩
    rw [← insertFor_eq_none_iff geoReader d]
    cases hins : insertFor geoReader d (relaysOn s d) with
    | none => rfl
    | some rows =>
      exfalso
      obtain ⟨hne, hdate⟩ := insertFor_dates geoReader d _ rows hins
      obtain ⟨row, hrow⟩ := List.exists_mem_of_ne_nil rows hne
      have hmiss : d ∈ datesWithoutCountry s := (mem_datesWithoutCountry s d).mpr ⟨hd, hbefore⟩
      exact hnone row
        (committed_rows geoReader schema _ s herr d hmiss rows hins row hrow) (hdate row hrow)
  · rintro ⟨⟨hd, hbefore⟩, hunres⟩
    refine ⟨hd, ?_⟩
    intro row hrow hrd
    rcases added_rows geoReader schema _ s row hrow with h | ⟨d', _, rows, hins, hmem⟩
    · exact hbefore row h hrd
    · have hd' : row.1 = d' := (insertFor_dates geoReader d' _ rows hins).2 row hmem
      have : d' = d := hd'.symm.trans hrd
      subst this
      rw [(insertFor_eq_none_iff geoReader d' _).mpr hunres] at hins
      cases hins

/-- C10: when the lookups of the addresses yield ISO 3166-1 alpha-2 codes, the
job issues an insert for a date and its relay addresses exactly when some
address resolves; its rows are one `(date, cc, count)` per distinct resolved
code: all carry the date, every code is a two-letter code and none occurs
twice, every count is at least 1 and is the number of addresses resolving to
the code, and there are as many rows as distinct resolved codes.  When no
address resolves there is no insert and the run writes no row for the date.
Over a run the statements issued are, in order, those of the missing dates, up
to the first rejected. -/
theorem C10_insert_rows (geoReader : GeoReader) (date : Date) (ips : List IP)
    (hiso : ∀ ip ∈ ips, hasIsoCode geoReader ip = true) :
    ((insertFor geoReader date ips).isSome ↔ ∃ ip ∈ ips, resolve geoReader ip ≠ none) ∧
    (∀ rows, insertFor geoReader date ips = some rows →
      (∀ row ∈ rows, row.1 = date) ∧
      (∀ row ∈ rows, isIsoCode row.2.1 = true) ∧
      (rows.map (fun row => row.2.1)).Nodup ∧
      (∀ row ∈ rows, 1 ≤ row.2.2) ∧
      rows.length = ((ips.filterMap (resolve geoReader)).dedup).length ∧
      (∀ cc n, (date, cc, n) ∈ rows ↔
        n = ips.countP (fun ip => resolve geoReader ip = some cc) ∧ 1 ≤ n)) ∧
    ((∀ ip ∈ ips, resolve geoReader ip = none) → insertFor geoReader date ips = none) ∧
    (∀ schema s, (∀ row ∈ s.relays, hasIsoCode geoReader row.2 = true) →
      date ∈ datesWithoutCountry s →
      (∀ ip ∈ relaysOn s date, resolve geoReader ip = none) →
      ∀ row ∈ (main geoReader schema s).store.country_counts, row.1 ≠ date) ∧
    (∀ schema s, (∀ row ∈ s.relays, hasIsoCode geoReader row.2 = true) →
      (main geoReader schema s).statements <+:
        (datesWithoutCountry s).filterMap (fun d => insertFor geoReader d (relaysOn s d)) ∧
      ((main geoReader schema s).error = false →
        (main geoReader schema s).statements =
          (datesWithoutCountry s).filterMap
            (fun d => insertFor geoReader d (relaysOn s d)))) := by
  refine ⟨?_, ?_, (insertFor_eq_none_iff geoReader date ips).mpr, ?_, ?_⟩
  · have h := insertFor_eq_none_iff geoReader date ips
    cases hins : insertFor geoReader date ips with
    | none =>
      simp only [Option.isSome_none, Bool.false_eq_true, false_iff, not_exists, not_and,
        not_not]
      exact h.mp hins
    | some rows =>
      simp only [Option.isSome_some, true_iff]
      by_contra hcon
      simp only [not_exists, not_and, not_not] at hcon
      rw [h.mpr hcon] at hins
      cases hins
  · intro rows hins
    have hrows : rows = countrySpecs date (countRelays geoReader ips).countryCounts := by
      rw [insertFor_eq] at hins
      split at hins
      · cases hins
      · exact (Option.some.inj hins).symm
    have hnd : ((countRelays geoReader ips).countryCounts.map Prod.fst).Nodup :=
      nodup_countFrom geoReader ips ⟨[], 0⟩ (by simp)
    have hkeys : rows.map (fun row => row.2.1) =
        (countRelays geoReader ips).countryCounts.map Prod.fst := by
      rw [hrows, countrySpecs, List.map_map]
      rfl
    refine ⟨(insertFor_dates geoReader date ips rows hins).2, ?_, ?_, ?_, ?_, ?_⟩
    · intro row hrow
      apply keys_isIsoCode geoReader ips hiso
      rw [← hkeys]
      exact List.mem_map_of_mem (fun row : CountRow => row.2.1) hrow
    · rw [hkeys]
      exact hnd
    · intro row hrow
      rw [hrows, countrySpecs, List.mem_map] at hrow
      obtain ⟨e, he, hrow⟩ := hrow
      rw [← hrow]
      exact pos_countFrom geoReader ips ⟨[], 0⟩ (by simp) e he
    · have hlen : rows.length = (rows.map (fun row => row.2.1)).length := by simp
      rw [hlen, hkeys]
      apply List.Perm.length_eq
      rw [List.perm_ext_iff_of_nodup hnd (List.nodup_dedup _)]
      intro cc
      rw [List.mem_dedup, List.mem_filterMap]
      have := keys_countFrom geoReader ips ⟨[], 0⟩ cc
      simpa using this
    · intro cc n
      rw [← entries_countRelays geoReader ips cc n, hrows, countrySpecs, List.mem_map]
      constructor
      · rintro ⟨e, he, heq⟩
        obtain ⟨k, v⟩ := e
        simp only [Prod.mk.injEq, true_and] at heq
        rw [← heq.1, ← heq.2]
        exact he
      · intro he
        exact ⟨(cc, n), he, rfl⟩
  · intro schema s _ hmiss hunres row hrow hrd
    rcases added_rows geoReader schema _ s row hrow with h | ⟨d', _, rows, hins, hmem⟩
    · exact ((mem_datesWithoutCountry s date).mp hmiss).2 row h hrd
    · have hd' : row.1 = d' := (insertFor_dates geoReader d' _ rows hins).2 row hmem
      have : d' = date := hd'.symm.trans hrd
      subst this
      rw [(insertFor_eq_none_iff geoReader d' _).mpr hunres] at hins
      cases hins
  · intro schema s _
    obtain ⟨_, _, hpre, hok, _⟩ := forDates_spec geoReader schema (datesWithoutCountry s) s
    exact ⟨hpre, fun herr => (hok herr).1⟩

/-- C10 at concrete inputs: the insert issued for day 2 of `storeSample`, and
the absence of an insert when the only address is not in the database. -/
theorem C10_insert_rows_witness :
    insertFor geoSample 2 (relaysOn storeSample 2) = some [(2, "us", 2), (2, "de", 1)] ∧
    insertFor geoSample 3 (relaysOn storeSample 3) = none ∧
    (main geoSample anySchema storeSample).statements = [[(2, "us", 2), (2, "de", 1)]] ∧
    ([(2, "us", 2), (2, "de", 1)] : List CountRow).length =
      (((relaysOn storeSample 2).filterMap (resolve geoSample)).dedup).length :=
  ⟨by decide, by decide, by decide,
    ((C10_insert_rows geoSample 2 (relaysOn storeSample 2) (by decide)).2.1 _
      (by decide)).2.2.2.2.1⟩


/-! ## The run over the store: C2, C3, C4, C7 -/

/-- C4: when `dates` holds one row per date, the missing-dates query returns
exactly the dates of `dates` for which `country_counts` has no row, each once,
in ascending order. -/
theorem C4_missing_dates_query (s : Store) (h : s.dates.Nodup) :
    (∀ d, d ∈ datesWithoutCountry s ↔
      d ∈ s.dates ∧ ¬ ∃ row ∈ s.country_counts, row.1 = d) ∧
    (datesWithoutCountry s).Nodup ∧
    (datesWithoutCountry s).Sorted (fun a b => a < b) := by
  have hnd := nodup_datesWithoutCountry s h
  refine ⟨?_, hnd, ?_⟩
  · intro d
    rw [mem_datesWithoutCountry]
    simp only [ne_eq, not_exists, not_and]
  · have hs := sorted_datesWithoutCountry s
    unfold List.Sorted at hs ⊢
    have hne : List.Pairwise (fun a b => a ≠ b) (datesWithoutCountry s) := hnd
    exact (hs.and hne).imp (fun hab => lt_of_le_of_ne hab.1 hab.2)

/-- C4 at a concrete store: day 1 has a count row, days 2 and 3 have none. -/
theorem C4_missing_dates_query_witness :
    storeSample.dates = [3, 1, 2] ∧ datesWithoutCountry storeSample = [2, 3] ∧
    (datesWithoutCountry storeSample).Sorted (fun a b => a < b) :=
  ⟨rfl, by decide, (C4_missing_dates_query storeSample (by decide)).2.2⟩

/-- C2, as stated, fails: the run over `storeUnresolved` completes without
error, day 1 has a relay snapshot row, and the missing-dates query still
returns day 1 afterwards. -/
theorem C2_counterexample :
    (main geoSample anySchema storeUnresolved).error = false ∧
    (1, "D") ∈ storeUnresolved.relays ∧
    1 ∈ datesWithoutCountry (main geoSample anySchema storeUnresolved).store := by
  decide

/-- C2, amended: when the lookups of the relay addresses yield ISO 3166-1
alpha-2 codes, after a run that completes without error the missing-dates
query returns exactly the dates that were missing before the run and none of
whose relay addresses resolves to a country.  So it returns no date with a
relay address that resolves, and a missing date whose addresses are all
unresolved is returned again.  The rows the run has written carry two-letter
codes. -/
theorem C2_missing_after_run (geoReader : GeoReader) (schema : Schema) (s : Store)
    (hiso : ∀ row ∈ s.relays, hasIsoCode geoReader row.2 = true)
    (herr : (main geoReader schema s).error = false) :
    (∀ d, d ∈ datesWithoutCountry (main geoReader schema s).store ↔
      d ∈ datesWithoutCountry s ∧ ∀ ip ∈ relaysOn s d, resolve geoReader ip = none) ∧
    (∀ d ip, (d, ip) ∈ s.relays → resolve geoReader ip ≠ none →
      d ∉ datesWithoutCountry (main geoReader schema s).store) ∧
    (∀ row ∈ (main geoReader schema s).store.country_counts,
      row ∈ s.country_counts ∨ isIsoCode row.2.1 = true) := by
  refine ⟨mem_missing_after_main geoReader schema s herr, ?_, ?_⟩
  swap
  · intro row hrow
    rcases added_rows geoReader schema _ s row hrow with h | ⟨d, _, rows, hins, hmem⟩
    · exact Or.inl h
    · exact Or.inr (insertFor_isIsoCode geoReader d _
        (hasIsoCode_relaysOn geoReader s hiso d) rows hins row hmem)
  intro d ip hrel hres hmiss
  have h := ((mem_missing_after_main geoReader schema s herr d).mp hmiss).2
  apply hres
  apply h ip
  simp only [relaysOn, List.mem_map, List.mem_filter, decide_eq_true_eq]
  exact ⟨(d, ip), ⟨hrel, rfl⟩, rfl⟩

/-- C2, amended, at a concrete store: day 2 is done after the run, day 3,
whose only relay is not in the GeoIP database, is still missing. -/
theorem C2_missing_after_run_witness :
    (main geoSample anySchema storeSample).error = false ∧
    datesWithoutCountry (main geoSample anySchema storeSample).store = [3] ∧
    2 ∉ datesWithoutCountry (main geoSample anySchema storeSample).store :=
  ⟨by decide, by decide,
    (C2_missing_after_run geoSample anySchema storeSample (by decide) (by decide)).2.1 2 "A"
      (by decide) (by decide)⟩

/-- C3: when a run completes without error, a second run on the store it left
(same reader, `dates` and `relays` unchanged) completes without error, issues
no insert and leaves `country_counts` as the first run left it. -/
theorem C3_second_run_changes_nothing (geoReader : GeoReader) (schema : Schema) (s : Store)
    (herr : (main geoReader schema s).error = false) :
    (main geoReader schema (main geoReader schema s).store).error = false ∧
    (main geoReader schema (main geoReader schema s).store).store.country_counts =
      (main geoReader schema s).store.country_counts ∧
    (main geoReader schema (main geoReader schema s).store).statements = [] := by
  have hrel : (main geoReader schema s).store.relays = s.relays :=
    (forDates_spec geoReader schema (datesWithoutCountry s) s).2.1
  have hnone : ∀ d ∈ datesWithoutCountry (main geoReader schema s).store,
      insertFor geoReader d (relaysOn (main geoReader schema s).store d) = none := by
    intro d hd
    rw [relaysOn_congr s _ hrel, insertFor_eq_none_iff]
    exact ((mem_missing_after_main geoReader schema s herr d).mp hd).2
  have h2 : main geoReader schema (main geoReader schema s).store =
      ⟨(main geoReader schema s).store, [], false⟩ :=
    forDates_nothing geoReader schema _ _ hnone
  rw [h2]
  exact ⟨rfl, rfl, rfl⟩

/-- C3 at a concrete store: the first run adds the rows of day 2, the second
run adds nothing. -/
theorem C3_second_run_changes_nothing_witness :
    (main geoSample anySchema storeSample).error = false ∧
    (main geoSample anySchema storeSample).store.country_counts =
      [(1, "us", 1), (2, "us", 2), (2, "de", 1)] ∧
    (main geoSample anySchema (main geoSample anySchema storeSample).store).store.country_counts =
      (main geoSample anySchema storeSample).store.country_counts :=
  ⟨by decide, by decide,
    (C3_second_run_changes_nothing geoSample anySchema storeSample (by decide)).2.1⟩

/-- C7: a run leaves `dates` and `relays` as they were and only appends to
`country_counts`: the table afterwards is the table before followed by added
rows, and every added row has a date of the missing list computed at the start,
a date for which the table had no row. -/
theorem C7_run_only_appends (geoReader : GeoReader) (schema : Schema) (s : Store) :
    (main geoReader schema s).store.dates = s.dates ∧
    (main geoReader schema s).store.relays = s.relays ∧
    ∃ added, (main geoReader schema s).store.country_counts = s.country_counts ++ added ∧
      ∀ row ∈ added, row.1 ∈ datesWithoutCountry s ∧
        ∀ old ∈ s.country_counts, old.1 ≠ row.1 := by
  obtain ⟨hd, hr, hpre, _, added, hcc, hadded⟩ :=
    forDates_spec geoReader schema (datesWithoutCountry s) s
  refine ⟨hd, hr, added, hcc, ?_⟩
  intro row hrow
  obtain ⟨rows, hrows, hmem⟩ := hadded row hrow
  obtain ⟨d, hdmiss, hins⟩ := List.mem_filterMap.mp (hpre.subset hrows)
  have hdate : row.1 = d := (insertFor_dates geoReader d _ rows hins).2 row hmem
  rw [hdate]
  exact ⟨hdmiss, ((mem_datesWithoutCountry s d).mp hdmiss).2⟩

/-! ## The ingestion driver: C5, C9 -/

theorem runIngest_eq (env : Env) :
    runIngest env =
      if env.initErr then [Event.exit 1]
      else
        [Event.ingestFiles "data/sample", Event.callback "data/sample" (env.ingestErr 0),
          Event.ingestFiles "data/historical",
          Event.callback "data/historical" (env.ingestErr 1),
          Event.ingestFiles "data/current", Event.callback "data/current" (env.ingestErr 2),
          Event.exit 0] := by
  simp [runIngest, processNext, directories]

/-- C5, as stated, fails: the ingestion of the first directory reports an
error and the run still exits with code 0. -/
theorem C5_counterexample :
    envFirstFails.initErr = false ∧ envFirstFails.ingestErr 0 = true ∧
    Event.callback "data/sample" true ∈ runIngest envFirstFails ∧
    exitCode (runIngest envFirstFails) = some 0 := by
  rw [runIngest_eq]
  decide

/-- C5, amended: the exit code of the run depends on the database
initialisation only: it is 0 when the initialisation succeeds, whatever the
ingestion of the directories reports, and 1 when the initialisation fails. -/
theorem C5_exit_code (env : Env) :
    exitCode (runIngest env) = some (if env.initErr then 1 else 0) := by
  rw [runIngest_eq]
  cases env.initErr <;> simp [exitCode]

/-- C9: after a successful database initialisation `ingestFiles` is called on
`data/sample`, `data/historical`, `data/current`, once each and in this order,
each call after the callback of the previous one, whatever the callbacks
report, and the run exits after the last callback.  When the initialisation
fails no directory is ingested. -/
theorem C9_directories_in_order (ingestErr : Nat → Bool) :
    runIngest ⟨false, ingestErr⟩ =
      [Event.ingestFiles "data/sample", Event.callback "data/sample" (ingestErr 0),
        Event.ingestFiles "data/historical", Event.callback "data/historical" (ingestErr 1),
        Event.ingestFiles "data/current", Event.callback "data/current" (ingestErr 2),
        Event.exit 0] ∧
    ingested (runIngest ⟨false, ingestErr⟩) = directories ∧
    runIngest ⟨true, ingestErr⟩ = [Event.exit 1] ∧
    ingested (runIngest ⟨true, ingestErr⟩) = [] := by
  refine ⟨?_, ?_, ?_, ?_⟩ <;> rw [runIngest_eq] <;> simp [ingested, directories]

end Torflow
